import Mathlib

/-
Verification of the VQ-VAE orchestration core (src/VQVAE.py) against its
natural-language specification.

Modelling conventions:
  * all scalars are exact rationals;
  * tensors are lists (a grid is a list of per-location vectors);
  * the encoder, decoder and prior are external collaborators and are
    modelled as opaque function fields of the model record;
  * autograd attachment is modelled by a boolean flag on returned values,
    with detach clearing the flag;
  * the only mutable state is the quantiser state (codebook and the two
    EMA accumulators); every stateful operation returns the post-state;
  * calls to the external encoder and decoder are counted explicitly.
-/

namespace VQVAE

/-- Arithmetic mean of a list of rationals (tensor `.mean()`); the mean of
an empty list is 0 by the total division convention. -/
def meanQ (l : List ℚ) : ℚ := l.sum / (l.length : ℚ)

/-- Squared Euclidean distance between two vectors of equal length. -/
def distSq (v w : List ℚ) : ℚ := (List.zipWith (fun a b => (a - b) ^ 2) v w).sum

/-- First index attaining the minimum of `f` on `0, ..., K-1`: a left fold
keeping the current best and replacing it only on strict improvement, so
ties keep the earlier (lower) index. -/
def argminN (f : ℕ → ℚ) (K : ℕ) : ℕ :=
  (List.range K).foldl (fun b k => if f k < f b then k else b) 0

theorem argminN_zero (f : ℕ → ℚ) : argminN f 0 = 0 := rfl

theorem argminN_succ (f : ℕ → ℚ) (K : ℕ) :
    argminN f (K + 1) = if f K < f (argminN f K) then K else argminN f K := by
  simp [argminN, List.range_succ]

theorem argminN_lt (f : ℕ → ℚ) (K : ℕ) (hK : 0 < K) : argminN f K < K := by
  induction K with
  | zero => exact absurd hK (by simp)
  | succ n ih =>
    rw [argminN_succ]
    split
    · exact Nat.lt_succ_self n
    · rcases Nat.eq_zero_or_pos n with h0 | hp
      · subst h0
        simp [argminN_zero]
      · exact Nat.lt_succ_of_lt (ih hp)

theorem argminN_le (f : ℕ → ℚ) (K : ℕ) (k : ℕ) (hk : k < K) :
    f (argminN f K) ≤ f k := by
  induction K with
  | zero => exact absurd hk (by simp)
  | succ n ih =>
    rw [argminN_succ]
    rcases Nat.lt_succ_iff_lt_or_eq.mp hk with hlt | heq
    · split
      · next h => exact le_trans (le_of_lt h) (ih hlt)
      · exact ih hlt
    · subst heq
      split
      · exact le_refl _
      · next h => exact le_of_not_lt h

theorem argminN_first (f : ℕ → ℚ) (K : ℕ) (j : ℕ) (hj : j < argminN f K) :
    f (argminN f K) < f j := by
  induction K with
  | zero => exact absurd (Nat.lt_of_lt_of_le hj (Nat.le_of_eq (argminN_zero f))) (by simp)
  | succ n ih =>
    rw [argminN_succ] at hj ⊢
    split
    · next h =>
      have hj2 : j < n := by
        rw [if_pos h] at hj
        exact hj
      exact lt_of_lt_of_le h (argminN_le f n j hj2)
    · next h =>
      rw [if_neg h] at hj
      exact ih hj

theorem argminN_tie (f : ℕ → ℚ) (K : ℕ) (k : ℕ)
    (he : f k = f (argminN f K)) : argminN f K ≤ k := by
  by_contra hc
  have := argminN_first f K k (Nat.lt_of_not_le hc)
  rw [he] at this
  exact lt_irrefl _ this

/-- Immutable quantiser configuration: codebook size `K`, embedding
dimension `D`, commitment cost, EMA decay rate and smoothing epsilon. -/
structure QConfig where
  K : ℕ
  D : ℕ
  commitmentCost : ℚ
  decay : ℚ
  eps : ℚ
deriving DecidableEq

/-- Mutable quantiser state: the codebook (`K` rows of dimension `D`), the
EMA cluster-size accumulator and the EMA accumulated-sum accumulator. -/
structure QState where
  embedding : List (List ℚ)
  clusterSize : List ℚ
  emaW : List (List ℚ)
deriving DecidableEq

/-- Modelled from the spec: `VectorQuantiser.py` (class `VectorQuantiserEMA`)
is not under `src/`; per §4.1 the assignment of one latent vector is the
index of the codebook entry at minimal squared Euclidean distance, ties
broken by lowest index. -/
def nearestIndex (cfg : QConfig) (st : QState) (v : List ℚ) : ℕ :=
  argminN (fun k => distSq v (st.embedding.getD k [])) cfg.K

/-- Elementwise sum of a list of vectors of dimension `D`. -/
def sumVecs (D : ℕ) (vs : List (List ℚ)) : List ℚ :=
  vs.foldl (fun acc v => List.zipWith (· + ·) acc v) (List.replicate D 0)

/-- Modelled from the spec: `VectorQuantiser.py` is not under `src/`; per
§4.1 the EMA update computes per-entry counts and latent sums for the
current batch, decays both accumulators toward them, Laplace-smooths the
cluster sizes against the total mass, and rewrites every codebook entry as
the accumulated sum divided by its smoothed size. -/
def emaUpdate (cfg : QConfig) (st : QState) (latent : List (List ℚ))
    (idxs : List ℕ) : QState :=
  let counts := (List.range cfg.K).map
    (fun k => (((idxs.filter (fun i => i = k)).length : ℕ) : ℚ))
  let sums := (List.range cfg.K).map
    (fun k => sumVecs cfg.D (((latent.zip idxs).filter (fun p => p.2 = k)).map Prod.fst))
  let cs2 := List.zipWith (fun c cnt => cfg.decay * c + (1 - cfg.decay) * cnt)
    st.clusterSize counts
  let ema2 := List.zipWith
    (fun w s => List.zipWith (fun a b => cfg.decay * a + (1 - cfg.decay) * b) w s)
    st.emaW sums
  let n := cs2.sum
  let smoothed := cs2.map (fun c => (c + cfg.eps) / (n + (cfg.K : ℚ) * cfg.eps) * n)
  let emb2 := List.zipWith (fun w s => w.map (fun a => a / s)) ema2 smoothed
  { embedding := emb2, clusterSize := cs2, emaW := ema2 }

/-- Modelled from the spec: `VectorQuantiser.py` is not under `src/`.
Quantisation per §4.1: assign every location its nearest codebook index,
look the assigned entries up, and charge the commitment loss
`commitment_cost * mean over locations of the squared latent-to-quantised
distance`; when `training` is set the EMA update runs afterwards.  The
result tuple is ordered `(loss, quantised grid, index grid)` followed by
the post-state, matching how the call sites in `src/VQVAE.py` unpack it
(`quant_loss, z_quantised, z_indices = self._vq_vae(z)` on line 214 and
`_, z_quantised, z_indices = self._vq_vae(z)` on line 188). -/
def quantizeFull (cfg : QConfig) (st : QState) (latent : List (List ℚ))
    (training : Bool) : ℚ × List (List ℚ) × List ℕ × QState :=
  let idxs := latent.map (nearestIndex cfg st)
  let quant := idxs.map (fun i => st.embedding.getD i [])
  let loss := cfg.commitmentCost * meanQ (List.zipWith distSq latent quant)
  let st2 := if training then emaUpdate cfg st latent idxs else st
  (loss, quant, idxs, st2)

/-- Commitment loss returned by the quantiser. -/
def qLoss (cfg : QConfig) (st : QState) (latent : List (List ℚ)) (training : Bool) : ℚ :=
  (quantizeFull cfg st latent training).1

/-- Quantised grid returned by the quantiser. -/
def qGrid (cfg : QConfig) (st : QState) (latent : List (List ℚ)) (training : Bool) :
    List (List ℚ) :=
  (quantizeFull cfg st latent training).2.1

/-- Index grid returned by the quantiser. -/
def qIdx (cfg : QConfig) (st : QState) (latent : List (List ℚ)) (training : Bool) :
    List ℕ :=
  (quantizeFull cfg st latent training).2.2.1

/-- Quantiser state after a quantise call. -/
def qStateAfter (cfg : QConfig) (st : QState) (latent : List (List ℚ)) (training : Bool) :
    QState :=
  (quantizeFull cfg st latent training).2.2.2

/-- An opaque tensor at the external interface (encoder input, decoder
output): a shape together with flat data.  The orchestrator compares
shapes with `x.size() == y.size()` in `interpolate`. -/
structure Ten where
  shape : List ℕ
  data : List ℚ
deriving DecidableEq

/-- A value together with its autograd attachment flag; `detach` clears
the flag. -/
structure GTensor (α : Type) where
  val : α
  attached : Bool
deriving DecidableEq

/-- The `.detach()` operation: same value, detached from the graph. -/
def detach {α : Type} (t : GTensor α) : GTensor α := ⟨t.val, false⟩

/-- Errors the orchestration core can raise.  `invalidIndex` is the
runtime error `scatter_` raises when an index is outside `[0, K)`. -/
inductive QErr where
  | invalidIndex : QErr
deriving DecidableEq

/-- Counts of calls made to the external encoder and decoder. -/
structure Counts where
  enc : ℕ
  dec : ℕ
deriving DecidableEq

/-- One-hot row of length `K` with a 1 at position `i`: a zero row with
position `i` scattered to 1, as built by `torch.zeros` + `scatter_`. -/
def oneHot (K : ℕ) (i : ℕ) : List ℚ := (List.replicate K (0 : ℚ)).set i 1

/-- The `z_sample.scatter_(1, indices, 1)` step of `sample`/`interpolate`:
one one-hot row of width `K` per index.  PyTorch `scatter_` bounds-checks
its index argument and raises a runtime error when an index lies outside
`[0, K)`; that failure is the `invalidIndex` error here. -/
def scatterOneHot (K : ℕ) (idxs : List ℤ) : Except QErr (List (List ℚ)) :=
  if ∀ i ∈ idxs, 0 ≤ i ∧ i < (K : ℤ) then
    Except.ok (idxs.map (fun i => oneHot K i.toNat))
  else
    Except.error QErr.invalidIndex

/-- Column `d` of a row-times-matrix product: the sum over `k` of
`row[k] * emb[k][d]`. -/
def dotCol (row : List ℚ) (emb : List (List ℚ)) (d : ℕ) : ℚ :=
  (List.zipWith (fun c v => c * v.getD d 0) row emb).sum

/-- Row-vector times matrix, `D` output columns: the
`torch.matmul(z_sample, embedding.weight)` step applied to one row. -/
def vecMat (row : List ℚ) (emb : List (List ℚ)) (D : ℕ) : List ℚ :=
  (List.range D).map (dotCol row emb)

/-- The full gather used by `sample` and `interpolate`: scatter the index
grid to one-hot rows, then multiply by the embedding table. -/
def gatherQuantise (cfg : QConfig) (st : QState) (idxs : List ℤ) :
    Except QErr (List (List ℚ)) :=
  (scatterOneHot cfg.K idxs).map (fun oh => oh.map (fun row => vecMat row st.embedding cfg.D))

/-- The VQ-VAE model (`class VQVAE` in `src/VQVAE.py`).  The encoder, the
`_pre_vq_conv` projection, the decoder and the prior are external
collaborators, held as opaque functions; `priorSampleOut` is the index
grid `self.prior.sample()` returns, `priorReconstruct` is
`self.prior.reconstruct`, `priorPredict` is the logits call
`self.prior(z_indices)`, and `crossEntropy` is the framework primitive
`F.cross_entropy(logits, target, reduction = none)` returning the
per-location values grouped per batch element (its log-softmax arithmetic
is transcendental, so it stays an uninterpreted function).  `log2e` is the
rational stand-in for the constant `np.log2(np.exp(1))`.  `training` is
the `nn.Module` train/eval mode and `fitPrior` the `fit_prior` flag. -/
structure Model where
  cfg : QConfig
  qstate : QState
  training : Bool
  fitPrior : Bool
  log2e : ℚ
  encoder : Ten → List (List ℚ)
  preVq : List (List ℚ) → List (List ℚ)
  decoder : List (List ℚ) → Ten
  priorSampleOut : List ℤ
  priorReconstruct : List ℕ → List ℤ
  priorPredict : List ℕ → List (List ℚ)
  crossEntropy : List (List ℚ) → List ℕ → List (List ℚ)

/-- Invoke the external encoder, counting the call. -/
def callEnc (m : Model) (x : Ten) (c : Counts) : List (List ℚ) × Counts :=
  (m.encoder x, ⟨c.enc + 1, c.dec⟩)

/-- Invoke the external decoder, counting the call. -/
def callDec (m : Model) (g : List (List ℚ)) (c : Counts) : Ten × Counts :=
  (m.decoder g, ⟨c.enc, c.dec + 1⟩)

/-- The latent grid `z = self._pre_vq_conv(self._encoder(x))`. -/
def encLatent (m : Model) (x : Ten) : List (List ℚ) :=
  m.preVq (m.encoder x)

/-- `VQVAE.sample` (src/VQVAE.py lines 162-176): draw an index grid from
the prior, gather codebook vectors by one-hot scatter and matmul against
the codebook, and decode the assembled grid.  Returns the result, the
quantiser state after the call, and the encoder/decoder call counts. -/
def sample (m : Model) : Except QErr Ten × QState × Counts :=
  match gatherQuantise m.cfg m.qstate m.priorSampleOut with
  | Except.error e => (Except.error e, m.qstate, ⟨0, 0⟩)
  | Except.ok q =>
    let r := callDec m q ⟨0, 0⟩
    (Except.ok r.1, m.qstate, r.2)

/-- `VQVAE.forward` (src/VQVAE.py lines 213-228): encode, project,
quantise under the module training mode; when `fit_prior` is set, score
the indices with the prior, take the per-batch mean of the per-location
cross-entropy, scale by `log2(e)`, average over the batch, and return the
reconstruction and quantisation loss detached; otherwise return them
attached together with `torch.zeros(1, requires_grad=True)`. -/
def forward (m : Model) (x : Ten) :
    (GTensor Ten × GTensor ℚ × GTensor ℚ) × QState × Counts :=
  let e := callEnc m x ⟨0, 0⟩
  let z := m.preVq e.1
  let q := quantizeFull m.cfg m.qstate z m.training
  let quantLoss := q.1
  let zQuantised := q.2.1
  let zIndices := q.2.2.1
  let st2 := q.2.2.2
  if m.fitPrior then
    let zLogits := m.priorPredict zIndices
    let zCrossEntropy := m.crossEntropy zLogits zIndices
    let zPerBatch := (zCrossEntropy.map meanQ).map (fun a => a * m.log2e)
    let zPredictionError := meanQ zPerBatch
    let r := callDec m zQuantised e.2
    ((detach ⟨r.1, true⟩, detach ⟨quantLoss, true⟩, ⟨zPredictionError, true⟩), st2, r.2)
  else
    let r := callDec m zQuantised e.2
    ((⟨r.1, true⟩, ⟨quantLoss, true⟩, ⟨0, true⟩), st2, r.2)

/-- `VQVAE.reconstruct` (src/VQVAE.py lines 207-208): alias for `forward`. -/
def reconstruct (m : Model) (x : Ten) :
    (GTensor Ten × GTensor ℚ × GTensor ℚ) × QState × Counts :=
  forward m x

/-- The denoised index grid `interpolate` obtains from the prior:
`self.prior.reconstruct(z_indices)` applied to the indices of the averaged
latent grid. -/
def interpDenoisedIdx (m : Model) (x y : Ten) : List ℤ :=
  m.priorReconstruct
    (qIdx m.cfg m.qstate
      (List.zipWith (fun a b => List.zipWith (fun p q => (p + q) / 2) a b)
        (encLatent m x) (encLatent m y))
      m.training)

/-- `VQVAE.interpolate` (src/VQVAE.py lines 178-205): when the two input
shapes agree, encode both, average the latents, quantise (a bare
`self._vq_vae(z)` call, so under the module training mode), denoise the
indices through the prior, gather codebook vectors by one-hot scatter and
matmul, and decode; when the shapes differ the code returns `x` unchanged. -/
def interpolate (m : Model) (x y : Ten) : Except QErr Ten × QState × Counts :=
  if x.shape = y.shape then
    let ex := callEnc m x ⟨0, 0⟩
    let zx := m.preVq ex.1
    let ey := callEnc m y ex.2
    let zy := m.preVq ey.1
    let z := List.zipWith (fun a b => List.zipWith (fun p q => (p + q) / 2) a b) zx zy
    let q := quantizeFull m.cfg m.qstate z m.training
    let zIndices := q.2.2.1
    let st2 := q.2.2.2
    let zDenoised := m.priorReconstruct zIndices
    match gatherQuantise m.cfg st2 zDenoised with
    | Except.error e => (Except.error e, st2, ey.2)
    | Except.ok g =>
      let r := callDec m g ey.2
      (Except.ok r.1, st2, r.2)
  else
    (Except.ok x, m.qstate, ⟨0, 0⟩)

/-- Concrete configuration for evaluation: the scenario of spec §8
(`K = 4`, `D = 2`, commitment cost 1/4) with decay 1/2 and epsilon 1/100. -/
def cfg0 : QConfig := ⟨4, 2, 1/4, 1/2, 1/100⟩

/-- Concrete quantiser state with the §8 codebook
`[[0,0],[10,0],[0,10],[10,10]]`. -/
def st0 : QState :=
  ⟨[[0, 0], [10, 0], [0, 10], [10, 10]], [1, 1, 1, 1],
    [[0, 0], [10, 0], [0, 10], [10, 10]]⟩

/-- A concrete input tensor. -/
def x0 : Ten := ⟨[1, 3, 4, 4], [1]⟩

/-- A concrete input tensor whose shape differs from `x0`. -/
def y0 : Ten := ⟨[1, 3, 2, 2], []⟩

/-- A concrete model over `cfg0`/`st0` with simple external collaborators. -/
def m0 : Model where
  cfg := cfg0
  qstate := st0
  training := false
  fitPrior := false
  log2e := 3/2
  encoder := fun _ => [[1, 1]]
  preVq := fun g => g
  decoder := fun g => ⟨[g.length], g.flatten⟩
  priorSampleOut := [0, 3]
  priorReconstruct := fun l => l.map (fun n => (n : ℤ))
  priorPredict := fun _ => [[1, 0, 0, 0]]
  crossEntropy := fun _ idx => [idx.map (fun _ => (1 : ℚ))]

/-- `m0` with prior fitting enabled. -/
def m3 : Model := { m0 with fitPrior := true }

/-- `m0` with a prior that emits out-of-range indices. -/
def m7 : Model :=
  { m0 with priorSampleOut := [7], priorReconstruct := fun _ => [-1] }

/-- `m0` in train mode. -/
def m8 : Model := { m0 with training := true }

/-- An alternative encoder used to show encoder-independence of `sample`. -/
def altEnc : Ten → List (List ℚ) := fun _ => []

/-- The grid `sample m0` gathers from the prior indices `[0, 3]`. -/
def g9 : List (List ℚ) := [[0, 0], [10, 10]]

/-- A tagged quantiser result component, used to state which kind of value
sits at which position of the returned tuple. -/
inductive QOut where
  | scalar : ℚ → QOut
  | grid : List (List ℚ) → QOut
  | idxs : List ℕ → QOut
deriving DecidableEq

/-- The quantiser result as the ordered list of its three components,
tagged by kind, in the order the call sites in `src/VQVAE.py` unpack
them. -/
def quantizeOuts (cfg : QConfig) (st : QState) (latent : List (List ℚ))
    (training : Bool) : List QOut :=
  [QOut.scalar (quantizeFull cfg st latent training).1,
   QOut.grid (quantizeFull cfg st latent training).2.1,
   QOut.idxs (quantizeFull cfg st latent training).2.2.1]

/-- The return order the spec asserts, in its words: first the quantised
grid, then the index grid, then the scalar commitment loss. -/
def specQuantizeOrder (outs : List QOut) : Prop :=
  ∃ g i l, outs = [QOut.grid g, QOut.idxs i, QOut.scalar l]

theorem sum_map_mul (c : ℚ) : ∀ l : List ℚ, (l.map (fun a => a * c)).sum = l.sum * c
  | [] => by simp
  | a :: t => by simp [sum_map_mul c t, add_mul]

theorem meanQ_map_mul (c : ℚ) (l : List ℚ) :
    meanQ (l.map (fun a => a * c)) = c * meanQ l := by
  unfold meanQ
  rw [List.length_map, sum_map_mul]
  rw [div_eq_mul_inv, div_eq_mul_inv]
  ring

theorem zipWith_zero_sum (d : ℕ) :
    ∀ (rest : List (List ℚ)) (n : ℕ),
      (List.zipWith (fun c v => c * v.getD d 0) (List.replicate n (0 : ℚ)) rest).sum = 0
  | [], n => by cases n <;> simp
  | v :: t, 0 => by simp
  | v :: t, n + 1 => by
    rw [List.replicate_succ, List.zipWith_cons_cons, List.sum_cons, zero_mul, zero_add]
    exact zipWith_zero_sum d t n

theorem dotCol_oneHot (d : ℕ) :
    ∀ (emb : List (List ℚ)) (j : ℕ), j < emb.length →
      dotCol (oneHot emb.length j) emb d = (emb.getD j []).getD d 0
  | [], j, hj => by simp at hj
  | v :: t, 0, _ => by
    simp only [oneHot, dotCol, List.length_cons, List.replicate_succ, List.set_cons_zero,
      List.zipWith_cons_cons, List.sum_cons, List.getD_cons_zero, one_mul]
    rw [zipWith_zero_sum d t t.length, add_zero]
  | v :: t, j + 1, hj => by
    have ih := dotCol_oneHot d t j (Nat.lt_of_succ_lt_succ hj)
    simp only [oneHot, dotCol, List.replicate_succ, List.length_cons, List.set_cons_succ,
      List.zipWith_cons_cons, List.sum_cons, List.getD_cons_succ] at ih ⊢
    rw [zero_mul, zero_add]
    exact ih

theorem range_map_getD : ∀ v : List ℚ, (List.range v.length).map (fun d => v.getD d 0) = v
  | [] => by simp
  | a :: t => by
    simp only [List.length_cons, List.range_succ_eq_map, List.map_cons, List.map_map,
      List.getD_cons_zero]
    have : ((fun d => (a :: t).getD d 0) ∘ Nat.succ) = fun d => t.getD d 0 := by
      funext d
      simp
    rw [this, range_map_getD t]

theorem vecMat_oneHot (emb : List (List ℚ)) (D j : ℕ) (hj : j < emb.length)
    (hD : (emb.getD j []).length = D) :
    vecMat (oneHot emb.length j) emb D = emb.getD j [] := by
  unfold vecMat
  rw [← hD]
  have h1 : (List.range (emb.getD j []).length).map (dotCol (oneHot emb.length j) emb) =
      (List.range (emb.getD j []).length).map (fun d => (emb.getD j []).getD d 0) :=
    List.map_congr_left (fun d _ => dotCol_oneHot d emb j hj)
  rw [h1, range_map_getD]

theorem getD_mem_of_lt {α : Type} (l : List α) (j : ℕ) (d : α) (hj : j < l.length) :
    l.getD j d ∈ l := by
  rw [List.getD_eq_getElem l d hj]
  exact List.getElem_mem hj

/-- C1: for inputs of differing shapes, `interpolate` does not signal
`ShapeMismatch` and does not run any documented fallback: it silently
returns `x` unchanged, untouching the quantiser state and calling neither
the encoder nor the decoder.  This exhibits the behaviour the spec
disallows, at a concrete pair of mismatched shapes. -/
theorem interpolate_shape_mismatch_silent :
    x0.shape ≠ y0.shape ∧ interpolate m0 x0 y0 = (Except.ok x0, m0.qstate, ⟨0, 0⟩) := by
  constructor
  · decide
  · norm_num [interpolate, x0, y0]

/-- C2 counterexample: at a concrete input, the quantiser result is not of
the shape the spec asserts (quantised grid first, then index grid, then
scalar loss): its first component is the scalar loss. -/
theorem quantize_order_refuted :
    ¬ specQuantizeOrder (quantizeOuts cfg0 st0 [[1, 1]] false) := by
  have h0 : quantizeOuts cfg0 st0 [[1, 1]] false =
      [QOut.scalar (1 / 2), QOut.grid [[0, 0]], QOut.idxs [0]] := by
    norm_num [quantizeOuts, quantizeFull, nearestIndex, argminN, List.range_succ, distSq,
      meanQ, cfg0, st0]
  intro h
  obtain ⟨g, i, l, he⟩ := h
  rw [h0] at he
  simp at he

/-- C2 as amended: for every latent grid and training flag, the quantiser
returns its three results in the order (commitment loss, quantised grid,
index grid): the scalar loss first, then the grid of looked-up codebook
vectors, then the assignments. -/
theorem quantize_order_actual (cfg : QConfig) (st : QState) (latent : List (List ℚ))
    (training : Bool) :
    quantizeOuts cfg st latent training =
      [QOut.scalar (cfg.commitmentCost *
          meanQ (List.zipWith distSq latent (qGrid cfg st latent training))),
       QOut.grid ((latent.map (nearestIndex cfg st)).map (fun i => st.embedding.getD i [])),
       QOut.idxs (latent.map (nearestIndex cfg st))] := by
  simp [quantizeOuts, quantizeFull, qGrid]

/-- C4: with `fit_prior` disabled, `forward` returns the decoded quantised
grid as the reconstruction, the quantisation loss, and a prior loss that
is exactly zero yet still attached to the autograd graph
(`torch.zeros(1, requires_grad=True)`), not a detached constant. -/
theorem forward_no_fit_prior (m : Model) (x : Ten) (h : m.fitPrior = false) :
    (forward m x).1 =
      (⟨m.decoder (qGrid m.cfg m.qstate (encLatent m x) m.training), true⟩,
       ⟨qLoss m.cfg m.qstate (encLatent m x) m.training, true⟩,
       ⟨(0 : ℚ), true⟩) := by
  simp [forward, h, qGrid, qLoss, encLatent, callEnc, callDec]

theorem forward_no_fit_prior_witness :
    m0.fitPrior = false ∧
    (forward m0 x0).1 =
      (⟨m0.decoder (qGrid m0.cfg m0.qstate (encLatent m0 x0) m0.training), true⟩,
       ⟨qLoss m0.cfg m0.qstate (encLatent m0 x0) m0.training, true⟩,
       ⟨(0 : ℚ), true⟩) :=
  ⟨rfl, forward_no_fit_prior m0 x0 rfl⟩

/-- C5: the quantiser assigns every location the index of a codebook entry
at minimal squared Euclidean distance, and among minimisers it selects the
lowest index. -/
theorem quantize_nearest_lowest_index (cfg : QConfig) (st : QState)
    (latent : List (List ℚ)) (training : Bool) (hK : 0 < cfg.K) :
    qIdx cfg st latent training = latent.map (nearestIndex cfg st) ∧
    ∀ v ∈ latent,
      nearestIndex cfg st v < cfg.K ∧
      (∀ k, k < cfg.K →
        distSq v (st.embedding.getD (nearestIndex cfg st v) []) ≤
          distSq v (st.embedding.getD k [])) ∧
      (∀ k, k < cfg.K →
        distSq v (st.embedding.getD k []) =
            distSq v (st.embedding.getD (nearestIndex cfg st v) []) →
        nearestIndex cfg st v ≤ k) := by
  constructor
  · rfl
  · intro v _
    refine ⟨?_, ?_, ?_⟩
    · exact argminN_lt (fun k => distSq v (st.embedding.getD k [])) cfg.K hK
    · intro k hk
      exact argminN_le (fun k => distSq v (st.embedding.getD k [])) cfg.K k hk
    · intro k _ he
      exact argminN_tie (fun k => distSq v (st.embedding.getD k [])) cfg.K k he

theorem quantize_nearest_lowest_index_witness :
    0 < cfg0.K ∧
    (qIdx cfg0 st0 [[1, 1]] false = ([[1, 1]] : List (List ℚ)).map (nearestIndex cfg0 st0) ∧
    ∀ v ∈ ([[1, 1]] : List (List ℚ)),
      nearestIndex cfg0 st0 v < cfg0.K ∧
      (∀ k, k < cfg0.K →
        distSq v (st0.embedding.getD (nearestIndex cfg0 st0 v) []) ≤
          distSq v (st0.embedding.getD k [])) ∧
      (∀ k, k < cfg0.K →
        distSq v (st0.embedding.getD k []) =
            distSq v (st0.embedding.getD (nearestIndex cfg0 st0 v) []) →
        nearestIndex cfg0 st0 v ≤ k)) :=
  ⟨by decide, quantize_nearest_lowest_index cfg0 st0 [[1, 1]] false (by decide)⟩

/-- C8 counterexample: with the model in train mode, a single
`interpolate` call on equal-shape inputs changes the EMA cluster-size
accumulator, because the bare `self._vq_vae(z)` call on line 188 runs
under the module train/eval mode rather than with `training = False`. -/
theorem interpolate_train_mode_mutates_ema :
    m8.training = true ∧
    (interpolate m8 x0 x0).2.1.clusterSize ≠ m8.qstate.clusterSize := by
  refine ⟨rfl, ?_⟩
  have h : (interpolate m8 x0 x0).2.1.clusterSize = [1, 1/2, 1/2, 1/2] := by
    norm_num [interpolate, gatherQuantise, scatterOneHot, quantizeFull, nearestIndex, argminN,
      List.range_succ, distSq, meanQ, emaUpdate, sumVecs, m8, m0, cfg0, st0, x0, callEnc,
      callDec, oneHot, vecMat, dotCol, Except.map, List.replicate, List.set, Int.toNat]
  rw [h]
  norm_num [m8, m0, st0]

/-- C8 as amended: `interpolate` invokes quantisation under the current
module train/eval mode (it passes no explicit flag); when the model is in
eval mode the codebook and both EMA accumulators are left unchanged by the
call. -/
theorem interpolate_eval_mode_preserves_state (m : Model) (x y : Ten)
    (ht : m.training = false) :
    (interpolate m x y).2.1 = m.qstate := by
  unfold interpolate
  split
  · dsimp only
    split <;> simp [quantizeFull, ht]
  · rfl

theorem interpolate_eval_mode_preserves_state_witness :
    m0.training = false ∧ (interpolate m0 x0 x0).2.1 = m0.qstate :=
  ⟨rfl, interpolate_eval_mode_preserves_state m0 x0 x0 rfl⟩

/-- C9: `sample` is independent of the encoder (replacing the encoder
changes nothing), makes no encoder call, and, whenever it produces an
output, that output is exactly one decoder call applied to the grid
gathered from the prior-sampled index grid. -/
theorem sample_one_decode_no_encode (m : Model) (e : Ten → List (List ℚ)) :
    sample { m with encoder := e } = sample m ∧
    (sample m).2.2.enc = 0 ∧
    ∀ g, gatherQuantise m.cfg m.qstate m.priorSampleOut = Except.ok g →
      (sample m).1 = Except.ok (m.decoder g) ∧ (sample m).2.2.dec = 1 := by
  refine ⟨rfl, ?_, ?_⟩
  · cases h : gatherQuantise m.cfg m.qstate m.priorSampleOut <;> simp [sample, h, callDec]
  · intro g hg
    simp [sample, hg, callDec]

theorem sample_one_decode_no_encode_witness :
    gatherQuantise m0.cfg m0.qstate m0.priorSampleOut = Except.ok g9 ∧
    ((sample m0).1 = Except.ok (m0.decoder g9) ∧ (sample m0).2.2.dec = 1) :=
  ⟨by norm_num [gatherQuantise, scatterOneHot, oneHot, vecMat, dotCol, List.range_succ,
      m0, cfg0, st0, g9, Except.map, List.replicate, List.set, Int.toNat],
   (sample_one_decode_no_encode m0 altEnc).2.2 g9
     (by norm_num [gatherQuantise, scatterOneHot, oneHot, vecMat, dotCol, List.range_succ,
       m0, cfg0, st0, g9, Except.map, List.replicate, List.set, Int.toNat])⟩

/-- C10: `sample` leaves the quantiser state — the codebook and both EMA
accumulators, the only mutable state of the model — unchanged; the network
and prior parameters are immutable function fields by construction. -/
theorem sample_preserves_quantiser_state (m : Model) : (sample m).2.1 = m.qstate := by
  cases h : gatherQuantise m.cfg m.qstate m.priorSampleOut <;> simp [sample, h]

/-- C3: with `fit_prior` enabled, `forward` returns the reconstruction and
the quantisation loss detached, and a still-attached prior loss equal to
the per-location cross-entropy between the prior prediction and the
observed indices, averaged over locations and batch and scaled by the
`log2(e)` constant. -/
theorem forward_fit_prior (m : Model) (x : Ten) (h : m.fitPrior = true) :
    (forward m x).1.1.attached = false ∧
    (forward m x).1.2.1.attached = false ∧
    (forward m x).1.2.2.attached = true ∧
    (forward m x).1.2.2.val =
      m.log2e * meanQ ((m.crossEntropy
          (m.priorPredict (qIdx m.cfg m.qstate (encLatent m x) m.training))
          (qIdx m.cfg m.qstate (encLatent m x) m.training)).map meanQ) ∧
    (forward m x).1.1.val = m.decoder (qGrid m.cfg m.qstate (encLatent m x) m.training) ∧
    (forward m x).1.2.1.val = qLoss m.cfg m.qstate (encLatent m x) m.training := by
  simp only [forward, h, detach, qIdx, qGrid, qLoss, encLatent, callEnc, callDec, if_true]
  refine ⟨trivial, trivial, trivial, ?_, trivial, trivial⟩
  exact meanQ_map_mul m.log2e _

theorem forward_fit_prior_witness :
    m3.fitPrior = true ∧
    ((forward m3 x0).1.1.attached = false ∧
    (forward m3 x0).1.2.1.attached = false ∧
    (forward m3 x0).1.2.2.attached = true ∧
    (forward m3 x0).1.2.2.val =
      m3.log2e * meanQ ((m3.crossEntropy
          (m3.priorPredict (qIdx m3.cfg m3.qstate (encLatent m3 x0) m3.training))
          (qIdx m3.cfg m3.qstate (encLatent m3 x0) m3.training)).map meanQ) ∧
    (forward m3 x0).1.1.val = m3.decoder (qGrid m3.cfg m3.qstate (encLatent m3 x0) m3.training) ∧
    (forward m3 x0).1.2.1.val = qLoss m3.cfg m3.qstate (encLatent m3 x0) m3.training) :=
  ⟨rfl, forward_fit_prior m3 x0 rfl⟩

/-- C6: for an index grid whose values all lie in `[0, K)`, the gather
implemented as one-hot scatter followed by matrix multiplication with the
embedding table equals the direct indexed lookup
`quantized[loc] = codebook[index_grid[loc]]` at every location. -/
theorem gather_is_lookup (cfg : QConfig) (st : QState) (idxs : List ℤ)
    (hK : st.embedding.length = cfg.K)
    (hD : ∀ v ∈ st.embedding, v.length = cfg.D)
    (hidx : ∀ i ∈ idxs, 0 ≤ i ∧ i < (cfg.K : ℤ)) :
    gatherQuantise cfg st idxs =
      Except.ok (idxs.map (fun i => st.embedding.getD i.toNat [])) := by
  unfold gatherQuantise scatterOneHot
  rw [if_pos hidx]
  simp only [Except.map, List.map_map]
  congr 1
  refine List.map_congr_left (fun i hi => ?_)
  simp only [Function.comp]
  have h1 : i.toNat < cfg.K := by
    have h2 := hidx i hi
    omega
  rw [← hK] at h1 ⊢
  exact vecMat_oneHot st.embedding cfg.D i.toNat h1
    (hD _ (getD_mem_of_lt st.embedding i.toNat [] h1))

theorem gather_is_lookup_witness :
    st0.embedding.length = cfg0.K ∧
    (∀ v ∈ st0.embedding, v.length = cfg0.D) ∧
    (∀ i ∈ ([0, 3] : List ℤ), 0 ≤ i ∧ i < (cfg0.K : ℤ)) ∧
    gatherQuantise cfg0 st0 [0, 3] =
      Except.ok (([0, 3] : List ℤ).map (fun i => st0.embedding.getD i.toNat [])) :=
  ⟨by decide, by decide, by decide,
   gather_is_lookup cfg0 st0 [0, 3] (by decide) (by decide) (by decide)⟩

/-- C7: whenever the index grid supplied by the prior (in `sample` or in
`interpolate`) contains a value outside `[0, K)`, the call fails with
`invalidIndex` at the scatter step — the point of detection — and never
wraps or clamps the indices into range. -/
theorem prior_index_out_of_range_fails (m : Model) (x y : Ten)
    (hs : ∃ i ∈ m.priorSampleOut, ¬(0 ≤ i ∧ i < (m.cfg.K : ℤ)))
    (hsh : x.shape = y.shape)
    (hr : ∃ i ∈ interpDenoisedIdx m x y, ¬(0 ≤ i ∧ i < (m.cfg.K : ℤ))) :
    (sample m).1 = Except.error QErr.invalidIndex ∧
    (interpolate m x y).1 = Except.error QErr.invalidIndex := by
  obtain ⟨i, hi, hni⟩ := hs
  have h1 : scatterOneHot m.cfg.K m.priorSampleOut = Except.error QErr.invalidIndex := by
    unfold scatterOneHot
    rw [if_neg (fun hall => hni (hall i hi))]
  obtain ⟨j, hj, hnj⟩ := hr
  have h2 : scatterOneHot m.cfg.K (interpDenoisedIdx m x y) = Except.error QErr.invalidIndex := by
    unfold scatterOneHot
    rw [if_neg (fun hall => hnj (hall j hj))]
  constructor
  · simp [sample, gatherQuantise, h1, Except.map]
  · simp only [interpDenoisedIdx, qIdx, quantizeFull, encLatent] at h2
    simp [interpolate, hsh, gatherQuantise, callEnc, quantizeFull, h2, Except.map]

theorem prior_index_out_of_range_fails_witness :
    (∃ i ∈ m7.priorSampleOut, ¬(0 ≤ i ∧ i < (m7.cfg.K : ℤ))) ∧
    x0.shape = x0.shape ∧
    (∃ i ∈ interpDenoisedIdx m7 x0 x0, ¬(0 ≤ i ∧ i < (m7.cfg.K : ℤ))) ∧
    ((sample m7).1 = Except.error QErr.invalidIndex ∧
     (interpolate m7 x0 x0).1 = Except.error QErr.invalidIndex) := by
  have hr : ∃ i ∈ interpDenoisedIdx m7 x0 x0, ¬(0 ≤ i ∧ i < (m7.cfg.K : ℤ)) := by
    have hd : interpDenoisedIdx m7 x0 x0 = [-1] := by
      norm_num [interpDenoisedIdx, qIdx, quantizeFull, nearestIndex, argminN, List.range_succ,
        distSq, meanQ, encLatent, m7, m0, cfg0, st0, x0]
    rw [hd]
    decide
  exact ⟨by decide, rfl, hr,
    prior_index_out_of_range_fails m7 x0 x0 (by decide) rfl hr⟩

end VQVAE
